import Mathlib

/-!
Shallow embedding of the `hexb64` command-line converter (src/main.rs).

The Rust program transcodes between hexadecimal text and Base64 (classic or
URL-safe), choosing its direction from the invocation name.  Pure Rust
functions become Lean functions; the `main` procedure becomes a function from
(argument zero, argument list, stdin contents) to a record of the produced
stdout text, stderr text and exit code.  Machine bytes (`u8`) are `Nat`s with
an explicit `< 256` bound where it matters.  A Rust `Result` becomes
`Except`/`RustResult`; an out-of-bounds `Vec` index (a Rust panic) becomes the
explicit `RustResult.panicked` outcome.
-/

set_option maxRecDepth 4000

namespace Hexb64

/-- `Mode` enum from src/main.rs: conversion direction. -/
inductive Mode where
  | B64ToHex
  | HexToB64
deriving DecidableEq

/-- `HexCase` enum from src/main.rs: output letter case for hex rendering. -/
inductive HexCase where
  | Lower
  | Upper
deriving DecidableEq

/-- Outcome of a fallible Rust function that may also panic (used for
`parse_hex`, whose pair loop can index out of bounds). -/
inductive RustResult (α : Type) where
  | ok (val : α)
  | err (msg : String)
  | panicked
deriving DecidableEq

/-- Rust `core::num::ParseIntError` kinds reachable from `u8::from_str_radix`
on a non-empty string slice. -/
inductive ParseIntError where
  | empty
  | invalidDigit
  | posOverflow
deriving DecidableEq

/-- `Display` text of the corresponding Rust `ParseIntError`. -/
def parseErrMsg : ParseIntError → String
  | .empty => "cannot parse integer from empty string"
  | .invalidDigit => "invalid digit found in string"
  | .posOverflow => "number too large to fit in target type"

/-- Rust `char::is_whitespace`: the Unicode White_Space property (used by
`str::trim` and `str::split_whitespace`). -/
def rustIsWhitespace (c : Char) : Bool :=
  let n := c.toNat
  (9 ≤ n && n ≤ 13) || n = 32 || n = 0x85 || n = 0xA0 || n = 0x1680 ||
    (0x2000 ≤ n && n ≤ 0x200A) || n = 0x2028 || n = 0x2029 || n = 0x202F ||
    n = 0x205F || n = 0x3000

/-- Rust `str::trim`: drop Unicode whitespace from both ends. -/
def rustTrim (l : List Char) : List Char :=
  ((l.dropWhile rustIsWhitespace).reverse.dropWhile rustIsWhitespace).reverse

/-- The `0x`/`0X` handling in `parse_hex`: `if s.starts_with("0x") ||
s.starts_with("0X") { s = &s[2..]; }` — both prefix characters are one byte,
so the byte slice `[2..]` drops exactly the two characters. -/
def strip0x (s : List Char) : List Char :=
  match s with
  | c0 :: c1 :: rest =>
    if c0 = '0' ∧ (c1 = 'x' ∨ c1 = 'X') then rest else c0 :: c1 :: rest
  | _ => s

/-- Rust `char::to_digit(16)`, as used by `u8::from_str_radix`: hex digit
value of a character, case-insensitive. -/
def hexDigitVal (c : Char) : Option Nat :=
  let n := c.toNat
  if 48 ≤ n ∧ n ≤ 57 then some (n - 48)
  else if 97 ≤ n ∧ n ≤ 102 then some (n - 87)
  else if 65 ≤ n ∧ n ≤ 70 then some (n - 55)
  else none

/-- Digit-accumulation loop of `u8::from_str_radix(_, 16)`: checked
`acc * 16 + digit`, overflowing past `u8::MAX` is `PosOverflow`. -/
def radixGo : List Char → Nat → Except ParseIntError Nat
  | [], acc => .ok acc
  | c :: rest, acc =>
    match hexDigitVal c with
    | none => .error .invalidDigit
    | some d => if acc * 16 + d ≤ 255 then radixGo rest (acc * 16 + d) else .error .posOverflow

/-- Rust `u8::from_str_radix(s, 16)`.  Faithful to `core`: an optional leading
`+` sign is accepted (a lone `+` is `InvalidDigit`; `-` is not a sign for an
unsigned type and falls through to the digit loop as an invalid digit). -/
def from_str_radix16_u8 (s : List Char) : Except ParseIntError Nat :=
  match s with
  | [] => .error .empty
  | c :: rest =>
    let digits := if c = '+' then rest else c :: rest
    if digits.isEmpty then .error .invalidDigit
    else radixGo digits 0

/-- UTF-8 encoded size of one character, as contributes to Rust `str::len()`. -/
def charUtf8Size (c : Char) : Nat :=
  if c.toNat < 0x80 then 1
  else if c.toNat < 0x800 then 2
  else if c.toNat < 0x10000 then 3
  else 4

/-- Rust `str::len()`: number of UTF-8 bytes. -/
def utf8Len : List Char → Nat
  | [] => 0
  | c :: rest => charUtf8Size c + utf8Len rest

/-- The pair loop of `parse_hex`: `for i in (0..chars.len()).step_by(2)`
reading `chars[i]` and `chars[i + 1]`.  The loop is modelled structurally on
the suffix `chars[i..]`: an iteration runs exactly when the suffix is
non-empty (`i < chars.len()`), `chars[i]` is its head, and `chars[i + 1]` is
its second element — absent exactly when `i + 1` is out of bounds, which in
Rust is an index panic, modelled as `RustResult.panicked`. -/
def parsePairs : List Char → RustResult (List Nat)
  | [] => .ok []
  | [_] => .panicked
  | hi :: lo :: rest =>
    match from_str_radix16_u8 [hi, lo] with
    | .ok b =>
      match parsePairs rest with
      | .ok bs => .ok (b :: bs)
      | .err e => .err e
      | .panicked => .panicked
    | .error e =>
      .err ("Invalid hex pair \x27" ++ String.mk [hi, lo] ++ "\x27: " ++ parseErrMsg e)

/-- `parse_hex` from src/main.rs on the character list of the input: trim,
strip one leading `0x`/`0X`, remove remaining whitespace
(`split_whitespace().collect()`), reject empty input and odd *byte* length
(`s.len() % 2`), then parse consecutive character pairs. -/
def parseHexChars (input : List Char) : RustResult (List Nat) :=
  let s0 := rustTrim input
  let s1 := strip0x s0
  let s2 := s1.filter (fun ch => !rustIsWhitespace ch)
  if s2.isEmpty then .err "Empty hex string"
  else if utf8Len s2 % 2 ≠ 0 then .err "Hex string must have even length"
  else parsePairs s2

/-- `parse_hex` at the `&str` interface. -/
def parse_hex (input : String) : RustResult (List Nat) := parseHexChars input.data

/-- One output digit of `format!` with `{:02x}` / `{:02X}`. -/
def hexChar (c : HexCase) (d : Nat) : Char :=
  match c with
  | .Lower => "0123456789abcdef".data.getD d '0'
  | .Upper => "0123456789ABCDEF".data.getD d '0'

/-- `bytes_to_hex` from src/main.rs: each byte rendered as exactly two hex
digits (`{:02x}` or `{:02X}`), concatenated in order. -/
def bytes_to_hex : List Nat → HexCase → List Char
  | [], _ => []
  | b :: rest, c => hexChar c (b / 16) :: hexChar c (b % 16) :: bytes_to_hex rest c

/-- `bytes_to_hex` at the `String` interface. -/
def bytes_to_hex_str (bytes : List Nat) (c : HexCase) : String :=
  String.mk (bytes_to_hex bytes c)

/-- ASCII uppercasing of one character (the "other-case counterpart" of a
lowercase letter); characters outside `a`-`z` are unchanged. -/
def asciiUpper (c : Char) : Char :=
  match c with
  | 'a' => 'A' | 'b' => 'B' | 'c' => 'C' | 'd' => 'D' | 'e' => 'E' | 'f' => 'F'
  | 'g' => 'G' | 'h' => 'H' | 'i' => 'I' | 'j' => 'J' | 'k' => 'K' | 'l' => 'L'
  | 'm' => 'M' | 'n' => 'N' | 'o' => 'O' | 'p' => 'P' | 'q' => 'Q' | 'r' => 'R'
  | 's' => 'S' | 't' => 'T' | 'u' => 'U' | 'v' => 'V' | 'w' => 'W' | 'x' => 'X'
  | 'y' => 'Y' | 'z' => 'Z'
  | other => other

/-- ASCII lowercasing of one character; characters outside `A`-`Z` are
unchanged. -/
def asciiLower (c : Char) : Char :=
  match c with
  | 'A' => 'a' | 'B' => 'b' | 'C' => 'c' | 'D' => 'd' | 'E' => 'e' | 'F' => 'f'
  | 'G' => 'g' | 'H' => 'h' | 'I' => 'i' | 'J' => 'j' | 'K' => 'k' | 'L' => 'l'
  | 'M' => 'm' | 'N' => 'n' | 'O' => 'o' | 'P' => 'p' | 'Q' => 'q' | 'R' => 'r'
  | 'S' => 's' | 'T' => 't' | 'U' => 'u' | 'V' => 'v' | 'W' => 'w' | 'X' => 'x'
  | 'Y' => 'y' | 'Z' => 'z'
  | other => other

instance {ε α : Type} [DecidableEq ε] [DecidableEq α] : DecidableEq (Except ε α) := fun a b =>
  match a, b with
  | .ok x, .ok y =>
    if h : x = y then .isTrue (by rw [h]) else .isFalse (by intro hc; cases hc; exact h rfl)
  | .error x, .error y =>
    if h : x = y then .isTrue (by rw [h]) else .isFalse (by intro hc; cases hc; exact h rfl)
  | .ok _, .error _ => .isFalse (by intro hc; cases hc)
  | .error _, .ok _ => .isFalse (by intro hc; cases hc)

/-- Decode error of the Base64 engine (the offending character, or a length /
trailing-bits violation). -/
inductive B64Error where
  | invalidByte (c : Char)
  | invalidLength
  | invalidLastSymbol (c : Char)
deriving DecidableEq

/-- Rendering of a `B64Error`, standing for the `Display` text of the base64
crate's `DecodeError` interpolated by `b64_to_hex`. -/
def b64ErrMsg : B64Error → String
  | .invalidByte c => "Invalid symbol " ++ toString c.toNat ++ "."
  | .invalidLength => "Invalid input length."
  | .invalidLastSymbol c => "Invalid last symbol " ++ toString c.toNat ++ "."

/-- Modelled from the spec: the classic (RFC 4648 standard) Base64 alphabet of
the base64 crate's `general_purpose::STANDARD` engine, which is not part of
this repository.  Sixtet value to character. -/
def stdAlpha (v : Nat) : Char :=
  if v < 26 then Char.ofNat (65 + v)
  else if v < 52 then Char.ofNat (97 + (v - 26))
  else if v < 62 then Char.ofNat (48 + (v - 52))
  else if v = 62 then '+'
  else '/'

/-- Modelled from the spec: character to sixtet value for the classic
alphabet; `none` for any character outside it (including `=`). -/
def stdIndex (c : Char) : Option Nat :=
  let n := c.toNat
  if 65 ≤ n ∧ n ≤ 90 then some (n - 65)
  else if 97 ≤ n ∧ n ≤ 122 then some (n - 97 + 26)
  else if 48 ≤ n ∧ n ≤ 57 then some (n - 48 + 52)
  else if n = 43 then some 62
  else if n = 47 then some 63
  else none

/-- Modelled from the spec: the URL-safe (RFC 4648 §5) Base64 alphabet of
`general_purpose::URL_SAFE`, substituting `-` and `_` for `+` and `/`. -/
def urlAlpha (v : Nat) : Char :=
  if v < 26 then Char.ofNat (65 + v)
  else if v < 52 then Char.ofNat (97 + (v - 26))
  else if v < 62 then Char.ofNat (48 + (v - 52))
  else if v = 62 then '-'
  else '_'

/-- Modelled from the spec: character to sixtet value for the URL-safe
alphabet. -/
def urlIndex (c : Char) : Option Nat :=
  let n := c.toNat
  if 65 ≤ n ∧ n ≤ 90 then some (n - 65)
  else if 97 ≤ n ∧ n ≤ 122 then some (n - 97 + 26)
  else if 48 ≤ n ∧ n ≤ 57 then some (n - 48 + 52)
  else if n = 45 then some 62
  else if n = 95 then some 63
  else none

/-- Modelled from the spec: RFC 4648 Base64 encoding with `=` padding over a
given alphabet (both `general_purpose::STANDARD` and `general_purpose::URL_SAFE`
encode in the padded form).  Three input bytes become four symbols; a final
group of one or two bytes is padded with `==` or `=`. -/
def b64encodeGo (alpha : Nat → Char) : List Nat → List Char
  | [] => []
  | [b0] => [alpha (b0 / 4), alpha (b0 % 4 * 16), '=', '=']
  | [b0, b1] => [alpha (b0 / 4), alpha (b0 % 4 * 16 + b1 / 16), alpha (b1 % 16 * 4), '=']
  | b0 :: b1 :: b2 :: rest =>
    alpha (b0 / 4) :: alpha (b0 % 4 * 16 + b1 / 16) :: alpha (b1 % 16 * 4 + b2 / 64) ::
      alpha (b2 % 64) :: b64encodeGo alpha rest

/-- Decoding of one full (non-padded) group of four symbols into three bytes;
a character outside the alphabet is an error. -/
def decodeFullQuad (idx : Char → Option Nat) (c0 c1 c2 c3 : Char) :
    Except B64Error (List Nat) :=
  match idx c0, idx c1, idx c2, idx c3 with
  | some v0, some v1, some v2, some v3 =>
    .ok [v0 * 4 + v1 / 16, v1 % 16 * 16 + v2 / 4, v2 % 4 * 64 + v3]
  | none, _, _, _ => .error (.invalidByte c0)
  | some _, none, _, _ => .error (.invalidByte c1)
  | some _, some _, none, _ => .error (.invalidByte c2)
  | some _, some _, some _, none => .error (.invalidByte c3)

/-- Modelled from the spec: strict RFC 4648 Base64 decoding (the crate's
general-purpose engines in their default canonical-padding configuration).
The input must consist of four-symbol groups; `=` padding may appear only at
the end of the last group, and the unused low bits of the last data symbol
must be zero. -/
def b64decodeGo (idx : Char → Option Nat) : List Char → Except B64Error (List Nat)
  | [] => .ok []
  | c0 :: c1 :: c2 :: c3 :: rest =>
    if rest.isEmpty then
      if c2 = '=' ∧ c3 = '=' then
        match idx c0, idx c1 with
        | some v0, some v1 =>
          if v1 % 16 = 0 then .ok [v0 * 4 + v1 / 16] else .error (.invalidLastSymbol c1)
        | none, _ => .error (.invalidByte c0)
        | some _, none => .error (.invalidByte c1)
      else if c3 = '=' then
        match idx c0, idx c1, idx c2 with
        | some v0, some v1, some v2 =>
          if v2 % 4 = 0 then .ok [v0 * 4 + v1 / 16, v1 % 16 * 16 + v2 / 4]
          else .error (.invalidLastSymbol c2)
        | none, _, _ => .error (.invalidByte c0)
        | some _, none, _ => .error (.invalidByte c1)
        | some _, some _, none => .error (.invalidByte c2)
      else decodeFullQuad idx c0 c1 c2 c3
    else
      match decodeFullQuad idx c0 c1 c2 c3 with
      | .error e => .error e
      | .ok bs =>
        match b64decodeGo idx rest with
        | .ok brest => .ok (bs ++ brest)
        | .error e => .error e
  | _ => .error .invalidLength

/-- Base64 decoding at the `String` interface for a chosen alphabet. -/
def b64decode (idx : Char → Option Nat) (s : String) : Except B64Error (List Nat) :=
  b64decodeGo idx s.data

/-- `general_purpose::STANDARD.encode` (classic, padded). -/
def encode_classic (bytes : List Nat) : String := String.mk (b64encodeGo stdAlpha bytes)

/-- `general_purpose::URL_SAFE.encode` (URL-safe, padded). -/
def encode_urlsafe (bytes : List Nat) : String := String.mk (b64encodeGo urlAlpha bytes)

/-- The decode part of `b64_to_hex` from src/main.rs: try classic Base64
first, and on any failure fall back to URL-safe Base64 on the same input. -/
def fallback_decode (s : String) : Except B64Error (List Nat) :=
  match b64decode stdIndex s with
  | .ok b => .ok b
  | .error _ => b64decode urlIndex s

/-- `b64_to_hex` from src/main.rs: decode with the classic-then-URL-safe
fallback, rendering the bytes as hex; when both decodes fail, the reported
message interpolates the URL-safe attempt's error (the `map_err` sits on the
`URL_SAFE.decode` call). -/
def b64_to_hex (input : String) (hex_case : HexCase) : Except String String :=
  match fallback_decode input with
  | .ok bytes => .ok (bytes_to_hex_str bytes hex_case)
  | .error e => .error ("Failed to decode as classic or URL-safe base64: " ++ b64ErrMsg e)

/-- `hex_to_b64` from src/main.rs: parse hex, then encode with the URL-safe
engine when the flag is set, the classic engine otherwise (both padded). -/
def hex_to_b64 (input : String) (urlsafe : Bool) : RustResult String :=
  match parse_hex input with
  | .ok bytes => .ok (String.mk (b64encodeGo (if urlsafe then urlAlpha else stdAlpha) bytes))
  | .err e => .err e
  | .panicked => .panicked

/-- Rust `arg.starts_with('-')`: does the token begin with a dash? -/
def startsDash (a : String) : Bool :=
  match a.data with
  | '-' :: _ => true
  | _ => false

/-- Split a character list at every `/`, keeping empty segments. -/
def splitSlash : List Char → List (List Char)
  | [] => [[]]
  | c :: rest =>
    if c = '/' then [] :: splitSlash rest
    else
      match splitSlash rest with
      | [] => [[c]]
      | h :: t => (c :: h) :: t

/-- Rust `Path::new(&exe).file_name()`: the final path component, unless the
path is empty, a root, or terminates in `..` (`.` components are not file
names and are skipped). -/
def file_name (p : String) : Option String :=
  let comps := (splitSlash p.data).filter (fun c => !c.isEmpty && !(c == ['.']))
  match comps.getLast? with
  | none => none
  | some last => if last = ['.', '.'] then none else some (String.mk last)

/-- The mode dispatch on the executable name in `main`: `"b64hex"` and
`"hexb64"` are the two recognized invocation names. -/
def modeOf (exe_name : String) : Option Mode :=
  if exe_name = "b64hex" then some .B64ToHex
  else if exe_name = "hexb64" then some .HexToB64
  else none

/-- The argument loop of `main`, scanning tokens left to right: the three flag
literals update configuration (matched as global strings, with no reference to
the active mode); a non-dash token is taken as the positional data argument if
none was taken yet; anything else aborts with that token as an error. -/
def parseArgs : List String → HexCase → Bool → Option String →
    Except String (HexCase × Bool × Option String)
  | [], hex_case, b64_urlsafe, data_arg => .ok (hex_case, b64_urlsafe, data_arg)
  | a :: rest, hex_case, b64_urlsafe, data_arg =>
    if a = "-low" then parseArgs rest .Lower b64_urlsafe data_arg
    else if a = "-up" then parseArgs rest .Upper b64_urlsafe data_arg
    else if a = "-url" then parseArgs rest hex_case true data_arg
    else if startsDash a = false ∧ data_arg = none then
      parseArgs rest hex_case b64_urlsafe (some a)
    else .error a

/-- `print_usage` from src/main.rs: the usage text for each mode (the trailing
newline of `eprintln!` is added where the text is emitted). -/
def usage_text : Mode → String
  | .B64ToHex =>
    "Usage: b64hex [-low|-up] [data]\n-low   Hex output lowercase (default)\n" ++
      "-up    Hex output uppercase\n" ++
      "data   Base64 input (classic or URL-safe). If omitted, read from stdin."
  | .HexToB64 =>
    "Usage: hexb64 [-url] [data]\n-url   Use URL-safe base64 output\n" ++
      "data   Hex input (0x prefix allowed, any case). If omitted, read from stdin."

/-- Observable outcome of one program run: full stdout text, full stderr
text, exit code, and whether the process died in a panic. -/
structure ProgOutput where
  out : String
  errOut : String
  exitCode : Nat
  panics : Bool
deriving DecidableEq

/-- `main` after configuration parsing: acquire input from the positional
argument or stdin, strip all whitespace, reject empty input, convert by mode,
and print the result or the error. -/
def afterParse (mode : Mode) (stdin : String) :
    Except String (HexCase × Bool × Option String) → ProgOutput
  | .error a =>
    ⟨"", "Unknown or misplaced argument: " ++ a ++ "\n" ++ usage_text mode ++ "\n", 1, false⟩
  | .ok (hex_case, b64_urlsafe, data_arg) =>
    let input_raw := data_arg.getD stdin
    let input := String.mk (input_raw.data.filter (fun ch => !rustIsWhitespace ch))
    if input.data.isEmpty then
      ⟨"", "No input data provided.\n" ++ usage_text mode ++ "\n", 1, false⟩
    else
      match mode with
      | .B64ToHex =>
        match b64_to_hex input hex_case with
        | .ok res => ⟨res ++ "\n", "", 0, false⟩
        | .error e => ⟨"", "Error: " ++ e ++ "\n", 1, false⟩
      | .HexToB64 =>
        match hex_to_b64 input b64_urlsafe with
        | .ok res => ⟨res ++ "\n", "", 0, false⟩
        | .err e => ⟨"", "Error: " ++ e ++ "\n", 1, false⟩
        | .panicked => ⟨"", "", 101, true⟩

/-- `main` once the executable name is known: dispatch on the two recognized
names, or fail with the unknown-mode diagnostic. -/
def mainWithName (exe_name : String) (args : List String) (stdin : String) : ProgOutput :=
  match modeOf exe_name with
  | none =>
    ⟨"", "Unknown mode for executable name: " ++ exe_name ++
      "\nUse hardlinks named \x27b64hex\x27 or \x27hexb64\x27.\n", 1, false⟩
  | some mode => afterParse mode stdin (parseArgs args .Lower false none)

/-- `main` from src/main.rs as a function of argument zero (absent when
`env::args()` is empty), the remaining arguments, and the stdin contents.
Argument zero defaults to `"hexb64"` (`unwrap_or_else`), and so does its
basename when `file_name()` yields nothing (`unwrap_or`). -/
def main_run (arg0 : Option String) (args : List String) (stdin : String) : ProgOutput :=
  mainWithName ((file_name (arg0.getD "hexb64")).getD "hexb64") args stdin

/-! ### Concrete evaluations of the embedded program -/

example : parse_hex "0x68656c6c6f" = .ok [104, 101, 108, 108, 111] := by decide
example : parse_hex "abc" = .err "Hex string must have even length" := by decide
example : parse_hex "  " = .err "Empty hex string" := by decide
example : bytes_to_hex_str [104, 250] .Upper = "68FA" := by decide
example : parse_hex "+a" = .ok [10] := by decide
example : parse_hex "¡" = .panicked := by decide
example : encode_classic [104, 101, 108, 108, 111] = "aGVsbG8=" := by decide
example : encode_urlsafe [104, 101, 108, 108, 111] = "aGVsbG8=" := by decide
example : encode_classic [255, 0, 77] = "/wBN" := by decide
example : encode_urlsafe [255, 0, 77] = "_wBN" := by decide
example : fallback_decode "_wBN" = .ok [255, 0, 77] := by decide
example : b64_to_hex "aGVsbG8=" .Lower = .ok "68656c6c6f" := by decide
example : b64_to_hex "####" .Lower =
    .error "Failed to decode as classic or URL-safe base64: Invalid symbol 35." := by decide
example : hex_to_b64 "0x68656c6c6f" true = .ok "aGVsbG8=" := by decide
example : main_run (some "hexb64") ["0x68656c6c6f"] "" = ⟨"aGVsbG8=\n", "", 0, false⟩ := by
  decide
example : main_run (some "hexb64") ["-url", "0x68656c6c6f"] "" = ⟨"aGVsbG8=\n", "", 0, false⟩ := by
  decide
example : main_run (some "/usr/bin/b64hex") ["-up", "aGVsbG8="] "" =
    ⟨"68656C6C6F\n", "", 0, false⟩ := by decide
example : main_run (some "b64hex") ["aGVsbG8="] "" = ⟨"68656c6c6f\n", "", 0, false⟩ := by decide
example : (main_run (some "foo") [] "x").exitCode = 1 := by decide
example : main_run (some "hexb64") [] "68 65 6c 6c 6f" = ⟨"aGVsbG8=\n", "", 0, false⟩ := by
  decide
example : file_name "/" = none := by decide
example : file_name "a/.." = none := by decide

/-! ### Lemmas about the hex codec -/

theorem hexChar_digit (c : HexCase) : ∀ d < 16, hexDigitVal (hexChar c d) = some d := by
  cases c <;> decide

theorem hexChar_props (c : HexCase) : ∀ d < 16,
    rustIsWhitespace (hexChar c d) = false ∧ hexChar c d ≠ '+' ∧ hexChar c d ≠ 'x' ∧
      hexChar c d ≠ 'X' ∧ charUtf8Size (hexChar c d) = 1 := by
  cases c <;> decide

theorem dropWhile_ws_eq_self {l : List Char}
    (h : ∀ ch ∈ l, rustIsWhitespace ch = false) :
    l.dropWhile rustIsWhitespace = l := by
  cases l with
  | nil => rfl
  | cons a t => rw [List.dropWhile_cons, h a (by simp)]; simp

theorem rustTrim_eq_self {l : List Char}
    (h : ∀ ch ∈ l, rustIsWhitespace ch = false) :
    rustTrim l = l := by
  unfold rustTrim
  rw [dropWhile_ws_eq_self h,
    dropWhile_ws_eq_self (fun ch hch => h ch (List.mem_reverse.mp hch))]
  exact List.reverse_reverse l

theorem mem_bytes_to_hex {B : List Nat} (hB : ∀ b ∈ B, b < 256) (c : HexCase) :
    ∀ ch ∈ bytes_to_hex B c, ∃ d, d < 16 ∧ ch = hexChar c d := by
  induction B with
  | nil => intro ch h; simp [bytes_to_hex] at h
  | cons b rest ih =>
    intro ch h
    have hb : b < 256 := hB b (by simp)
    simp only [bytes_to_hex, List.mem_cons] at h
    rcases h with h | h | h
    · exact ⟨b / 16, by omega, h⟩
    · exact ⟨b % 16, by omega, h⟩
    · exact ih (fun x hx => hB x (List.mem_cons_of_mem _ hx)) ch h

theorem utf8Len_bytes_to_hex (c : HexCase) :
    ∀ B : List Nat, (∀ b ∈ B, b < 256) → utf8Len (bytes_to_hex B c) = 2 * B.length := by
  intro B
  induction B with
  | nil => intro; rfl
  | cons b rest ih =>
    intro hB
    have hb : b < 256 := hB b (by simp)
    have s1 := (hexChar_props c (b / 16) (by omega)).2.2.2.2
    have s2 := (hexChar_props c (b % 16) (by omega)).2.2.2.2
    simp only [bytes_to_hex, utf8Len, s1, s2, ih (fun x hx => hB x (List.mem_cons_of_mem _ hx)),
      List.length_cons]
    omega

theorem pair_parse (c : HexCase) (d1 d2 : Nat) (h1 : d1 < 16) (h2 : d2 < 16) :
    from_str_radix16_u8 [hexChar c d1, hexChar c d2] = .ok (d1 * 16 + d2) := by
  have e1 := hexChar_digit c d1 h1
  have e2 := hexChar_digit c d2 h2
  have ne1 := (hexChar_props c d1 h1).2.1
  rw [from_str_radix16_u8]
  simp only [if_neg ne1, List.isEmpty_cons, Bool.false_eq_true, if_false]
  rw [radixGo, e1]
  simp only []
  rw [if_pos (show 0 * 16 + d1 ≤ 255 by omega)]
  rw [radixGo, e2]
  simp only []
  rw [if_pos (show (0 * 16 + d1) * 16 + d2 ≤ 255 by omega)]
  rw [radixGo]
  exact congrArg _ (by omega)

theorem parsePairs_bytes_to_hex (c : HexCase) :
    ∀ B : List Nat, (∀ b ∈ B, b < 256) → parsePairs (bytes_to_hex B c) = .ok B := by
  intro B
  induction B with
  | nil => intro; rfl
  | cons b rest ih =>
    intro hB
    have hb : b < 256 := hB b (by simp)
    show parsePairs (hexChar c (b / 16) :: hexChar c (b % 16) :: bytes_to_hex rest c) = _
    rw [parsePairs, pair_parse c _ _ (by omega) (by omega),
      ih (fun x hx => hB x (List.mem_cons_of_mem _ hx))]
    rw [show b / 16 * 16 + b % 16 = b by omega]

/-- Claim C1: for every non-empty byte sequence `B` and each case choice
(`Lower`, `Upper`), parsing the hex rendering of `B` yields `B` back:
`parse_hex (bytes_to_hex B case)` succeeds and returns exactly `B`. -/
theorem parse_hex_bytes_to_hex_roundtrip (B : List Nat) (c : HexCase)
    (hne : B ≠ []) (hB : ∀ b ∈ B, b < 256) :
    parse_hex (bytes_to_hex_str B c) = .ok B := by
  obtain ⟨b, rest, rfl⟩ : ∃ b rest, B = b :: rest := by
    cases B with
    | nil => exact absurd rfl hne
    | cons b r => exact ⟨b, r, rfl⟩
  have hb : b < 256 := hB b (by simp)
  have hws : ∀ ch ∈ bytes_to_hex (b :: rest) c, rustIsWhitespace ch = false := by
    intro ch hch
    obtain ⟨d, hd, rfl⟩ := mem_bytes_to_hex hB c ch hch
    exact (hexChar_props c d hd).1
  have hstrip : strip0x (bytes_to_hex (b :: rest) c) = bytes_to_hex (b :: rest) c := by
    simp only [bytes_to_hex]
    rw [strip0x, if_neg]
    rintro ⟨-, h | h⟩
    · exact (hexChar_props c (b % 16) (by omega)).2.2.1 h
    · exact (hexChar_props c (b % 16) (by omega)).2.2.2.1 h
  have hfilt : (bytes_to_hex (b :: rest) c).filter (fun ch => !rustIsWhitespace ch) =
      bytes_to_hex (b :: rest) c := by
    apply List.filter_eq_self.mpr
    intro a ha
    rw [hws a ha]
    rfl
  have hlen : utf8Len (bytes_to_hex (b :: rest) c) = 2 * (b :: rest).length :=
    utf8Len_bytes_to_hex c _ hB
  show parseHexChars (bytes_to_hex (b :: rest) c) = _
  simp only [parseHexChars]
  rw [rustTrim_eq_self hws, hstrip, hfilt]
  have hne2 : (bytes_to_hex (b :: rest) c).isEmpty = false := by simp [bytes_to_hex]
  rw [hne2]
  simp only [Bool.false_eq_true, if_false]
  rw [if_neg (by rw [hlen]; omega)]
  exact parsePairs_bytes_to_hex c _ hB

/-- Witness for C1 at the concrete bytes `[104, 250, 0]`. -/
theorem parse_hex_bytes_to_hex_roundtrip_witness :
    (([104, 250, 0] : List Nat) ≠ [] ∧ ∀ b ∈ ([104, 250, 0] : List Nat), b < 256) ∧
      parse_hex (bytes_to_hex_str [104, 250, 0] .Upper) = .ok [104, 250, 0] :=
  ⟨⟨by decide, by decide⟩,
    parse_hex_bytes_to_hex_roundtrip [104, 250, 0] .Upper (by decide) (by decide)⟩

/-! ### Lemmas about the Base64 codec -/

theorem stdIndex_stdAlpha : ∀ v < 64, stdIndex (stdAlpha v) = some v := by decide

theorem stdAlpha_ne_eq : ∀ v < 64, stdAlpha v ≠ '=' := by decide

theorem urlIndex_urlAlpha : ∀ v < 64, urlIndex (urlAlpha v) = some v := by decide

theorem urlAlpha_ne_eq : ∀ v < 64, urlAlpha v ≠ '=' := by decide

theorem stdIndex_urlAlpha :
    ∀ v < 64, stdIndex (urlAlpha v) = none ∨ stdIndex (urlAlpha v) = some v := by decide

theorem b64encodeGo_isEmpty (alpha : Nat → Char) {B : List Nat} (h : B ≠ []) :
    (b64encodeGo alpha B).isEmpty = false := by
  match B with
  | [] => exact absurd rfl h
  | [b0] => rfl
  | [b0, b1] => rfl
  | b0 :: b1 :: b2 :: rest => rfl

/-- Strict decode-of-encode round trip over one alphabet: when the decoder's
index inverts the encoder's alphabet, decoding the padded encoding of any
byte sequence recovers it exactly. -/
theorem b64decode_encode (alpha : Nat → Char) (idx : Char → Option Nat)
    (hinv : ∀ v < 64, idx (alpha v) = some v)
    (hne : ∀ v < 64, alpha v ≠ '=') :
    ∀ B : List Nat, (∀ b ∈ B, b < 256) →
      b64decodeGo idx (b64encodeGo alpha B) = .ok B
  | [], _ => rfl
  | [b0], hB => by
    have hb0 : b0 < 256 := hB b0 (by simp)
    simp only [b64encodeGo, b64decodeGo, List.isEmpty_nil, if_true,
      hinv (b0 / 4) (by omega), hinv (b0 % 4 * 16) (by omega)]
    rw [if_pos (⟨trivial, trivial⟩ : True ∧ True),
      if_pos (show b0 % 4 * 16 % 16 = 0 by omega)]
    rw [show b0 / 4 * 4 + b0 % 4 * 16 / 16 = b0 by omega]
  | [b0, b1], hB => by
    have hb0 : b0 < 256 := hB b0 (by simp)
    have hb1 : b1 < 256 := hB b1 (by simp)
    simp only [b64encodeGo, b64decodeGo, List.isEmpty_nil, if_true,
      hinv (b0 / 4) (by omega), hinv (b0 % 4 * 16 + b1 / 16) (by omega),
      hinv (b1 % 16 * 4) (by omega)]
    rw [if_neg (fun h => hne (b1 % 16 * 4) (by omega) h.1),
      if_pos (show b1 % 16 * 4 % 4 = 0 by omega)]
    rw [show b0 / 4 * 4 + (b0 % 4 * 16 + b1 / 16) / 16 = b0 by omega,
      show (b0 % 4 * 16 + b1 / 16) % 16 * 16 + b1 % 16 * 4 / 4 = b1 by omega]
  | b0 :: b1 :: b2 :: rest, hB => by
    have hb0 : b0 < 256 := hB b0 (by simp)
    have hb1 : b1 < 256 := hB b1 (by simp)
    have hb2 : b2 < 256 := hB b2 (by simp)
    have ih := b64decode_encode alpha idx hinv hne rest
      (fun x hx => hB x (by simp [hx]))
    match rest with
    | [] =>
      simp only [b64encodeGo, b64decodeGo, List.isEmpty_nil, if_true, decodeFullQuad,
        hinv (b0 / 4) (by omega), hinv (b0 % 4 * 16 + b1 / 16) (by omega),
        hinv (b1 % 16 * 4 + b2 / 64) (by omega), hinv (b2 % 64) (by omega)]
      rw [if_neg (fun h => hne (b1 % 16 * 4 + b2 / 64) (by omega) h.1),
        if_neg (fun h => hne (b2 % 64) (by omega) h)]
      rw [show b0 / 4 * 4 + (b0 % 4 * 16 + b1 / 16) / 16 = b0 by omega,
        show (b0 % 4 * 16 + b1 / 16) % 16 * 16 + (b1 % 16 * 4 + b2 / 64) / 4 = b1 by omega,
        show (b1 % 16 * 4 + b2 / 64) % 4 * 64 + b2 % 64 = b2 by omega]
    | r0 :: rrest =>
      simp only [b64encodeGo, b64decodeGo, decodeFullQuad,
        b64encodeGo_isEmpty alpha (List.cons_ne_nil r0 rrest), Bool.false_eq_true, if_false,
        hinv (b0 / 4) (by omega), hinv (b0 % 4 * 16 + b1 / 16) (by omega),
        hinv (b1 % 16 * 4 + b2 / 64) (by omega), hinv (b2 % 64) (by omega)]
      rw [ih]
      rw [show b0 / 4 * 4 + (b0 % 4 * 16 + b1 / 16) / 16 = b0 by omega,
        show (b0 % 4 * 16 + b1 / 16) % 16 * 16 + (b1 % 16 * 4 + b2 / 64) / 4 = b1 by omega,
        show (b1 % 16 * 4 + b2 / 64) % 4 * 64 + b2 % 64 = b2 by omega]
      rfl

/-- Decoding the encoding produced over a *different* alphabet: when the
index either rejects or correctly inverts each encoded symbol, decoding
either recovers the bytes exactly or fails — it can never succeed with other
bytes.  (This is the situation of the classic decoder applied to a URL-safe
encoding, whose alphabets agree except on the two rejected symbols.) -/
theorem b64decode_encode_partial (alpha : Nat → Char) (idx : Char → Option Nat)
    (hsome : ∀ v < 64, idx (alpha v) = none ∨ idx (alpha v) = some v)
    (hne : ∀ v < 64, alpha v ≠ '=') :
    ∀ B : List Nat, (∀ b ∈ B, b < 256) →
      b64decodeGo idx (b64encodeGo alpha B) = .ok B ∨
        ∃ e, b64decodeGo idx (b64encodeGo alpha B) = .error e
  | [], _ => .inl rfl
  | [b0], hB => by
    have hb0 : b0 < 256 := hB b0 (by simp)
    simp only [b64encodeGo, b64decodeGo, List.isEmpty_nil, if_true]
    rw [if_pos (⟨trivial, trivial⟩ : True ∧ True)]
    rcases hsome (b0 / 4) (by omega) with h0 | h0
    · rw [h0]
      exact .inr ⟨_, rfl⟩
    rcases hsome (b0 % 4 * 16) (by omega) with h1 | h1
    · rw [h0, h1]
      exact .inr ⟨_, rfl⟩
    rw [h0, h1]
    simp only []
    rw [if_pos (show b0 % 4 * 16 % 16 = 0 by omega)]
    refine .inl ?_
    rw [show b0 / 4 * 4 + b0 % 4 * 16 / 16 = b0 by omega]
  | [b0, b1], hB => by
    have hb0 : b0 < 256 := hB b0 (by simp)
    have hb1 : b1 < 256 := hB b1 (by simp)
    simp only [b64encodeGo, b64decodeGo, List.isEmpty_nil, if_true]
    rw [if_neg (fun h => hne (b1 % 16 * 4) (by omega) h.1)]
    rcases hsome (b0 / 4) (by omega) with h0 | h0
    · rw [h0]
      exact .inr ⟨_, rfl⟩
    rcases hsome (b0 % 4 * 16 + b1 / 16) (by omega) with h1 | h1
    · rw [h0, h1]
      exact .inr ⟨_, rfl⟩
    rcases hsome (b1 % 16 * 4) (by omega) with h2 | h2
    · rw [h0, h1, h2]
      exact .inr ⟨_, rfl⟩
    rw [h0, h1, h2]
    simp only []
    rw [if_pos (show b1 % 16 * 4 % 4 = 0 by omega)]
    refine .inl ?_
    rw [show b0 / 4 * 4 + (b0 % 4 * 16 + b1 / 16) / 16 = b0 by omega,
      show (b0 % 4 * 16 + b1 / 16) % 16 * 16 + b1 % 16 * 4 / 4 = b1 by omega]
  | b0 :: b1 :: b2 :: rest, hB => by
    have hb0 : b0 < 256 := hB b0 (by simp)
    have hb1 : b1 < 256 := hB b1 (by simp)
    have hb2 : b2 < 256 := hB b2 (by simp)
    have ih := b64decode_encode_partial alpha idx hsome hne rest
      (fun x hx => hB x (by simp [hx]))
    match rest with
    | [] =>
      simp only [b64encodeGo, b64decodeGo, List.isEmpty_nil, if_true, decodeFullQuad]
      rw [if_neg (fun h => hne (b1 % 16 * 4 + b2 / 64) (by omega) h.1),
        if_neg (fun h => hne (b2 % 64) (by omega) h)]
      rcases hsome (b0 / 4) (by omega) with h0 | h0
      · rw [h0]
        exact .inr ⟨_, rfl⟩
      rcases hsome (b0 % 4 * 16 + b1 / 16) (by omega) with h1 | h1
      · rw [h0, h1]
        exact .inr ⟨_, rfl⟩
      rcases hsome (b1 % 16 * 4 + b2 / 64) (by omega) with h2 | h2
      · rw [h0, h1, h2]
        exact .inr ⟨_, rfl⟩
      rcases hsome (b2 % 64) (by omega) with h3 | h3
      · rw [h0, h1, h2, h3]
        exact .inr ⟨_, rfl⟩
      rw [h0, h1, h2, h3]
      simp only []
      refine .inl ?_
      rw [show b0 / 4 * 4 + (b0 % 4 * 16 + b1 / 16) / 16 = b0 by omega,
        show (b0 % 4 * 16 + b1 / 16) % 16 * 16 + (b1 % 16 * 4 + b2 / 64) / 4 = b1 by omega,
        show (b1 % 16 * 4 + b2 / 64) % 4 * 64 + b2 % 64 = b2 by omega]
    | r0 :: rrest =>
      simp only [b64encodeGo, b64decodeGo, decodeFullQuad,
        b64encodeGo_isEmpty alpha (List.cons_ne_nil r0 rrest), Bool.false_eq_true, if_false]
      rcases hsome (b0 / 4) (by omega) with h0 | h0
      · rw [h0]
        exact .inr ⟨_, rfl⟩
      rcases hsome (b0 % 4 * 16 + b1 / 16) (by omega) with h1 | h1
      · rw [h0, h1]
        exact .inr ⟨_, rfl⟩
      rcases hsome (b1 % 16 * 4 + b2 / 64) (by omega) with h2 | h2
      · rw [h0, h1, h2]
        exact .inr ⟨_, rfl⟩
      rcases hsome (b2 % 64) (by omega) with h3 | h3
      · rw [h0, h1, h2, h3]
        exact .inr ⟨_, rfl⟩
      rw [h0, h1, h2, h3]
      rcases ih with hok | ⟨e, herr⟩
      · rw [hok]
        simp only []
        refine .inl ?_
        rw [show b0 / 4 * 4 + (b0 % 4 * 16 + b1 / 16) / 16 = b0 by omega,
          show (b0 % 4 * 16 + b1 / 16) % 16 * 16 + (b1 % 16 * 4 + b2 / 64) / 4 = b1 by omega,
          show (b1 % 16 * 4 + b2 / 64) % 4 * 64 + b2 % 64 = b2 by omega]
        rfl
      · rw [herr]
        exact .inr ⟨e, rfl⟩

/-- Claim C2: for every byte sequence `B`, decoding the classic Base64
encoding of `B` with the classic-then-URL-safe fallback decoder succeeds and
yields `B`; likewise for the URL-safe encoding of `B`. -/
theorem fallback_decode_encode_roundtrip (B : List Nat) (hB : ∀ b ∈ B, b < 256) :
    fallback_decode (encode_classic B) = .ok B ∧
      fallback_decode (encode_urlsafe B) = .ok B := by
  constructor
  · have h1 := b64decode_encode stdAlpha stdIndex stdIndex_stdAlpha stdAlpha_ne_eq B hB
    have e1 : fallback_decode (encode_classic B) =
        match b64decodeGo stdIndex (b64encodeGo stdAlpha B) with
        | .ok b => .ok b
        | .error _ => b64decodeGo urlIndex (b64encodeGo stdAlpha B) := rfl
    rw [e1, h1]
  · have h2 := b64decode_encode urlAlpha urlIndex urlIndex_urlAlpha urlAlpha_ne_eq B hB
    have hp := b64decode_encode_partial urlAlpha stdIndex stdIndex_urlAlpha urlAlpha_ne_eq B hB
    have e2 : fallback_decode (encode_urlsafe B) =
        match b64decodeGo stdIndex (b64encodeGo urlAlpha B) with
        | .ok b => .ok b
        | .error _ => b64decodeGo urlIndex (b64encodeGo urlAlpha B) := rfl
    rw [e2]
    rcases hp with hok | ⟨e, herr⟩
    · rw [hok]
    · rw [herr, h2]

/-- Witness for C2 at the concrete bytes `[255, 0, 77]` (whose URL-safe
encoding `_wBN` is rejected by the classic decoder, exercising the
fallback). -/
theorem fallback_decode_encode_roundtrip_witness :
    (∀ b ∈ ([255, 0, 77] : List Nat), b < 256) ∧
      (fallback_decode (encode_classic [255, 0, 77]) = .ok [255, 0, 77] ∧
        fallback_decode (encode_urlsafe [255, 0, 77]) = .ok [255, 0, 77]) :=
  ⟨by decide, fallback_decode_encode_roundtrip [255, 0, 77] (by decide)⟩

/-- Claim C6: when the input fails to decode as classic Base64 and also as
URL-safe Base64, `b64_to_hex` reports the URL-safe attempt's decode error;
the classic attempt's error `e1` does not occur in the result. -/
theorem b64_to_hex_reports_urlsafe_error (s : String) (hc : HexCase) (e1 e2 : B64Error)
    (h1 : b64decode stdIndex s = .error e1) (h2 : b64decode urlIndex s = .error e2) :
    b64_to_hex s hc =
      .error ("Failed to decode as classic or URL-safe base64: " ++ b64ErrMsg e2) := by
  unfold b64_to_hex fallback_decode
  rw [h1, h2]

/-- Witness for C6 at the concrete input `"#"`, which both engines reject. -/
theorem b64_to_hex_reports_urlsafe_error_witness :
    (b64decode stdIndex "#" = .error .invalidLength ∧
        b64decode urlIndex "#" = .error .invalidLength) ∧
      b64_to_hex "#" .Lower =
        .error "Failed to decode as classic or URL-safe base64: Invalid input length." :=
  ⟨⟨by decide, by decide⟩,
    b64_to_hex_reports_urlsafe_error "#" .Lower .invalidLength .invalidLength
      (by decide) (by decide)⟩

/-! ### Claims about concrete scenarios and the hex parser's edge cases -/

/-- Claim C3 (counterexample): with the `-url` flag, the program does *not*
output the unpadded form `aGVsbG8` — `general_purpose::URL_SAFE` encodes in
the padded form. -/
theorem hexb64_url_not_unpadded :
    (main_run (some "hexb64") ["-url", "0x68656c6c6f"] "").out ≠ "aGVsbG8\n" ∧
      (main_run (some "hexb64") ["-url", "0x68656c6c6f"] "").out ≠ "aGVsbG8" := by
  decide

/-- Claim C3 (amended): invoked as `hexb64` with positional argument
`0x68656c6c6f` the program prints `aGVsbG8=` and exits 0, and with the `-url`
flag it prints the *padded* URL-safe form, which is likewise `aGVsbG8=`. -/
theorem hexb64_hello_scenario :
    main_run (some "hexb64") ["0x68656c6c6f"] "" = ⟨"aGVsbG8=\n", "", 0, false⟩ ∧
      main_run (some "hexb64") ["-url", "0x68656c6c6f"] "" =
        ⟨"aGVsbG8=\n", "", 0, false⟩ := by
  decide

/-- Claim C4 (code evaluated at the failing input): `parse_hex` *accepts* the
pair `+a` — `u8::from_str_radix` takes a leading `+` as a sign — returning
byte `0x0a`, instead of rejecting the non-hex character `+` with a pair
error as the claim requires. -/
theorem parse_hex_accepts_plus_pair : parse_hex "+a" = .ok [10] := by decide

/-- Claim C10 (code evaluated at the failing input): on the single-character
input `¡` (two UTF-8 bytes, so the even-byte-length check passes, but only
one element in the char vector) the pair loop reads `chars[1]` out of bounds
and panics, so `parse_hex` is not total. -/
theorem parse_hex_multibyte_panics : parse_hex "¡" = .panicked := by decide

/-- Claim C7: hex digits parse case-insensitively (a digit and its other-case
counterpart have the same value), the `0x`/`0X` prefix is removed exactly
when it occurs at the very start, and only once — a second occurrence, or an
occurrence elsewhere, is left in place and subsequently rejected as the pair
`0x`/`0X`. -/
theorem parse_hex_case_insensitive_single_strip :
    (∀ ch, hexDigitVal (asciiUpper ch) = hexDigitVal ch) ∧
      (∀ ch, hexDigitVal (asciiLower ch) = hexDigitVal ch) ∧
      (∀ rest, strip0x ('0' :: 'x' :: rest) = rest ∧ strip0x ('0' :: 'X' :: rest) = rest) ∧
      (∀ c0 c1 rest, ¬(c0 = '0' ∧ (c1 = 'x' ∨ c1 = 'X')) →
        strip0x (c0 :: c1 :: rest) = c0 :: c1 :: rest) ∧
      (parse_hex "ab" = .ok [171] ∧ parse_hex "aB" = .ok [171] ∧
        parse_hex "Ab" = .ok [171] ∧ parse_hex "AB" = .ok [171]) ∧
      parse_hex "0x0X68" = .err "Invalid hex pair \x270X\x27: invalid digit found in string" ∧
      parse_hex "680x" = .err "Invalid hex pair \x270x\x27: invalid digit found in string" := by
  refine ⟨?_, ?_, ?_, ?_, by decide, by decide, by decide⟩
  · intro ch
    unfold asciiUpper
    split <;> rfl
  · intro ch
    unfold asciiLower
    split <;> rfl
  · intro rest
    exact ⟨rfl, rfl⟩
  · intro c0 c1 rest h
    simp only [strip0x]
    rw [if_neg h]

/-- Witness for C7: the lowercase digit `a` and its counterpart `A` parse to
the same value, and a non-prefix first pair is not stripped. -/
theorem parse_hex_case_insensitive_single_strip_witness :
    hexDigitVal (asciiUpper 'a') = hexDigitVal 'a' ∧
      strip0x ('6' :: '8' :: ['0', 'x']) = '6' :: '8' :: ['0', 'x'] :=
  ⟨parse_hex_case_insensitive_single_strip.1 'a',
    parse_hex_case_insensitive_single_strip.2.2.2.1 '6' '8' ['0', 'x'] (by decide)⟩

/-! ### Claims about the option parser and the driver -/

theorem afterParse_hexToB64_hc (st : String) :
    ∀ (args : List String) (hc hc' : HexCase) (us : Bool) (da : Option String),
      afterParse .HexToB64 st (parseArgs args hc us da) =
        afterParse .HexToB64 st (parseArgs args hc' us da) := by
  intro args
  induction args with
  | nil => intro hc hc' us da; rfl
  | cons a rest ih =>
    intro hc hc' us da
    simp only [parseArgs]
    by_cases h1 : a = "-low"
    · rw [if_pos h1, if_pos h1]
    rw [if_neg h1, if_neg h1]
    by_cases h2 : a = "-up"
    · rw [if_pos h2, if_pos h2]
    rw [if_neg h2, if_neg h2]
    by_cases h3 : a = "-url"
    · rw [if_pos h3, if_pos h3]
      exact ih hc hc' true da
    rw [if_neg h3, if_neg h3]
    by_cases h4 : startsDash a = false ∧ da = none
    · rw [if_pos h4, if_pos h4]
      exact ih hc hc' us (some a)
    rw [if_neg h4, if_neg h4]

theorem afterParse_b64ToHex_us (st : String) :
    ∀ (args : List String) (hc : HexCase) (us us' : Bool) (da : Option String),
      afterParse .B64ToHex st (parseArgs args hc us da) =
        afterParse .B64ToHex st (parseArgs args hc us' da) := by
  intro args
  induction args with
  | nil => intro hc us us' da; rfl
  | cons a rest ih =>
    intro hc us us' da
    simp only [parseArgs]
    by_cases h1 : a = "-low"
    · rw [if_pos h1, if_pos h1]
      exact ih .Lower us us' da
    rw [if_neg h1, if_neg h1]
    by_cases h2 : a = "-up"
    · rw [if_pos h2, if_pos h2]
      exact ih .Upper us us' da
    rw [if_neg h2, if_neg h2]
    by_cases h3 : a = "-url"
    · rw [if_pos h3, if_pos h3]
    rw [if_neg h3, if_neg h3]
    by_cases h4 : startsDash a = false ∧ da = none
    · rw [if_pos h4, if_pos h4]
      exact ih hc us us' (some a)
    rw [if_neg h4, if_neg h4]

/-- Claim C5: flag tokens are matched as global literal strings, not scoped
by the active mode — each of `-low`, `-up`, `-url` is consumed by the parser
in any state, and a flag belonging to the other mode's vocabulary leaves that
run's observable output unchanged (it only sets configuration the active
mode ignores). -/
theorem flags_matched_globally :
    (∀ rest hc us da, parseArgs ("-low" :: rest) hc us da = parseArgs rest .Lower us da) ∧
      (∀ rest hc us da, parseArgs ("-up" :: rest) hc us da = parseArgs rest .Upper us da) ∧
      (∀ rest hc us da, parseArgs ("-url" :: rest) hc us da = parseArgs rest hc true da) ∧
      (∀ args st, main_run (some "hexb64") ("-low" :: args) st =
        main_run (some "hexb64") args st) ∧
      (∀ args st, main_run (some "hexb64") ("-up" :: args) st =
        main_run (some "hexb64") args st) ∧
      (∀ args st, main_run (some "b64hex") ("-url" :: args) st =
        main_run (some "b64hex") args st) := by
  refine ⟨fun rest hc us da => rfl, fun rest hc us da => rfl, fun rest hc us da => rfl,
    fun args st => rfl, ?_, ?_⟩
  · intro args st
    show afterParse .HexToB64 st (parseArgs ("-up" :: args) .Lower false none) =
      afterParse .HexToB64 st (parseArgs args .Lower false none)
    rw [show parseArgs ("-up" :: args) .Lower false none =
      parseArgs args .Upper false none from rfl]
    exact afterParse_hexToB64_hc st args .Upper .Lower false none
  · intro args st
    show afterParse .B64ToHex st (parseArgs ("-url" :: args) .Lower false none) =
      afterParse .B64ToHex st (parseArgs args .Lower false none)
    rw [show parseArgs ("-url" :: args) .Lower false none =
      parseArgs args .Lower true none from rfl]
    exact afterParse_b64ToHex_us st args .Lower true false none

/-- Witness for C5: `-up` given to `hexb64` is accepted and leaves the output
unchanged. -/
theorem flags_matched_globally_witness :
    main_run (some "hexb64") ["-up", "0x68"] "" = main_run (some "hexb64") ["0x68"] "" :=
  flags_matched_globally.2.2.2.2.1 ["0x68"] ""

/-- Claim C8: the option parser accepts exactly one bare (non-flag) token as
the positional argument; a second bare token, or a dash token that is not one
of the three flag literals, aborts the scan with that token, and the driver
then prints the active mode's usage text on the error stream and exits with
a non-zero status. -/
theorem one_positional_or_usage_error :
    (∀ t hc us, startsDash t = false → parseArgs [t] hc us none = .ok (hc, us, some t)) ∧
      (∀ a rest hc us t, startsDash a = false →
        parseArgs (a :: rest) hc us (some t) = .error a) ∧
      (∀ a rest hc us da, startsDash a = true → a ≠ "-low" → a ≠ "-up" → a ≠ "-url" →
        parseArgs (a :: rest) hc us da = .error a) ∧
      (∀ args a st, parseArgs args .Lower false none = .error a →
        main_run (some "b64hex") args st =
          ⟨"", "Unknown or misplaced argument: " ++ a ++ "\n" ++
            usage_text .B64ToHex ++ "\n", 1, false⟩) ∧
      (∀ args a st, parseArgs args .Lower false none = .error a →
        main_run (some "hexb64") args st =
          ⟨"", "Unknown or misplaced argument: " ++ a ++ "\n" ++
            usage_text .HexToB64 ++ "\n", 1, false⟩) := by
  have hflag : ∀ t : String, startsDash t = false →
      t ≠ "-low" ∧ t ≠ "-up" ∧ t ≠ "-url" := by
    intro t hd
    refine ⟨?_, ?_, ?_⟩ <;> rintro rfl <;> exact absurd hd (by decide)
  refine ⟨?_, ?_, ?_, ?_, ?_⟩
  · intro t hc us hd
    obtain ⟨h1, h2, h3⟩ := hflag t hd
    simp only [parseArgs]
    rw [if_neg h1, if_neg h2, if_neg h3, if_pos ⟨hd, trivial⟩]
  · intro a rest hc us t hd
    obtain ⟨h1, h2, h3⟩ := hflag a hd
    simp only [parseArgs]
    rw [if_neg h1, if_neg h2, if_neg h3,
      if_neg (fun h => Option.noConfusion h.2)]
  · intro a rest hc us da hd h1 h2 h3
    simp only [parseArgs]
    rw [if_neg h1, if_neg h2, if_neg h3,
      if_neg (fun h => by rw [hd] at h; exact Bool.noConfusion h.1)]
  · intro args a st h
    rw [show main_run (some "b64hex") args st =
      afterParse .B64ToHex st (parseArgs args .Lower false none) from rfl, h]
    rfl
  · intro args a st h
    rw [show main_run (some "hexb64") args st =
      afterParse .HexToB64 st (parseArgs args .Lower false none) from rfl, h]
    rfl

/-- Witness for C8: one bare token is accepted; the unknown dash token `-x`
given to `hexb64` yields the hexb64 usage text on stderr and exit status 1. -/
theorem one_positional_or_usage_error_witness :
    parseArgs ["abc"] .Lower false none = .ok (.Lower, false, some "abc") ∧
      main_run (some "hexb64") ["-x"] "" =
        ⟨"", "Unknown or misplaced argument: -x\n" ++ usage_text .HexToB64 ++ "\n", 1, false⟩ :=
  ⟨one_positional_or_usage_error.1 "abc" .Lower false (by decide),
    one_positional_or_usage_error.2.2.2.2 ["-x"] "-x" "" (by decide)⟩

/-- Claim C9: when argument zero is absent, or its basename cannot be
extracted, `main` substitutes the name `hexb64` and the run is
indistinguishable from an invocation named `hexb64` — i.e. it proceeds in
hex-to-Base64 mode rather than reporting an unknown-invocation-name error. -/
theorem missing_arg0_defaults_hexb64 :
    (∀ args st, main_run none args st = main_run (some "hexb64") args st) ∧
      (∀ p args st, file_name p = none →
        main_run (some p) args st = main_run (some "hexb64") args st) ∧
      modeOf "hexb64" = some .HexToB64 := by
  refine ⟨fun args st => rfl, ?_, rfl⟩
  intro p args st h
  show mainWithName ((file_name ((some p).getD "hexb64")).getD "hexb64") args st = _
  rw [show (some p).getD "hexb64" = p from rfl, h]
  rfl

/-- Witness for C9: the path `/` has no file name, so the run behaves as
`hexb64`. -/
theorem missing_arg0_defaults_hexb64_witness :
    file_name "/" = none ∧
      main_run (some "/") ["0x68"] "" = main_run (some "hexb64") ["0x68"] "" :=
  ⟨by decide, missing_arg0_defaults_hexb64.2.1 "/" ["0x68"] "" (by decide)⟩

end Hexb64
